import Mathlib

set_option maxRecDepth 10000

/-!
Shallow embedding of the `ConfigTree` subsystem of
`crates/rust-analyzer/src/config/tree.rs`, together with the parts of the
configuration schema (`crates/rust-analyzer/src/config.rs`) that the tree
depends on; the latter file is not among the sources at hand, so those parts
are modelled from the spec.

Machine pointers: `Arc<LocalConfigData>` allocation identity is tracked with an
explicit allocation counter (`nextArc` in the tree state); `Arc::new` hands out
a fresh id, cloning an `Arc` keeps the id, and `Arc::ptr_eq` compares ids.
-/

deriving instance DecidableEq for Except

namespace RaConfig

/-- Modelled from the spec: the value domain of the
`inlayHints.discriminantHints.enable` key (the concrete schema is outside the
spec's scope; the keys chosen here mirror the ones exercised by the source's
own test). -/
inductive DiscriminantHintsDef
  | always
  | never
  | fieldless
deriving DecidableEq

/-- Modelled from the spec: the sparse `local` sub-record of a parsed
configuration file. Every key is optionally present — "unset" is a first-class
state distinct from "set to default". -/
structure LocalConfigInput where
  completion_autoself_enable : Option Bool := none
  completion_autoimport_enable : Option Bool := none
  semanticHighlighting_strings_enable : Option Bool := none
  inlayHints_discriminantHints_enable : Option DiscriminantHintsDef := none
deriving DecidableEq

/-- Modelled from the spec: a parsed configuration file (`ConfigInput`). Only
the `local` sub-record is stored and propagated by the tree (the source stores
`input.local` only). `local` is a Lean keyword, hence the trailing underscore. -/
structure ConfigInput where
  local_ : LocalConfigInput := {}
deriving DecidableEq

/-- Modelled from the spec: the dense effective configuration
(`LocalConfigData`); every key has a resolved value. Field defaults are the
built-in defaults. -/
structure LocalConfigData where
  completion_autoself_enable : Bool := true
  completion_autoimport_enable : Bool := true
  semanticHighlighting_strings_enable : Bool := true
  inlayHints_discriminantHints_enable : DiscriminantHintsDef := .never
deriving DecidableEq

/-- Modelled from the spec: `LocalConfigData::default()`, all keys at their
built-in defaults. -/
def LocalConfigData.default : LocalConfigData := {}

/-- Modelled from the spec: `clone_with_overrides` overlays any set keys from a
sparse layer onto a dense record; unset keys pass through unchanged. Pure,
produces a fresh value. -/
def LocalConfigData.clone_with_overrides (d : LocalConfigData) (i : LocalConfigInput) :
    LocalConfigData where
  completion_autoself_enable :=
    i.completion_autoself_enable.getD d.completion_autoself_enable
  completion_autoimport_enable :=
    i.completion_autoimport_enable.getD d.completion_autoimport_enable
  semanticHighlighting_strings_enable :=
    i.semanticHighlighting_strings_enable.getD d.semanticHighlighting_strings_enable
  inlayHints_discriminantHints_enable :=
    i.inlayHints_discriminantHints_enable.getD d.inlayHints_discriminantHints_enable

/-- Modelled from the spec: `RootLocalConfigData`, the root-layer
interpretation of a sparse input. The source's tuple struct field `.0` is the
field `fst` here. -/
structure RootLocalConfigData where
  fst : LocalConfigData
deriving DecidableEq

/-- Modelled from the spec: `RootLocalConfigData::from_root_input`. It differs
from `default().clone_with_overrides(..)` only when root-only keys exist; the
modelled schema has none, so the two coincide, but the distinction is kept
structurally. -/
def RootLocalConfigData.from_root_input (i : LocalConfigInput) : RootLocalConfigData :=
  ⟨LocalConfigData.default.clone_with_overrides i⟩

/-- A TOML scalar value, as far as the modelled schema needs to distinguish
types (used to exhibit per-field deserialization failures). -/
inductive TomlValue
  | bool (b : Bool)
  | str (s : String)
  | int (n : Int)
deriving DecidableEq

/-- A parsed TOML table: dotted keys mapped to scalar values. -/
abbrev TomlTable := List (String × TomlValue)

/-- Key lookup in a parsed TOML table. -/
def lookupToml (t : TomlTable) (key : String) : Option TomlValue :=
  (t.find? fun e => e.1 == key).map (·.2)

/-- Modelled from the spec: deserializing a boolean-typed field. -/
def decodeBool : TomlValue → Except String Bool
  | .bool b => .ok b
  | _ => .error "expected a boolean"

/-- Modelled from the spec: deserializing the discriminant-hints enum field. -/
def decodeDiscriminantHints : TomlValue → Except String DiscriminantHintsDef
  | .str "always" => .ok .always
  | .str "never" => .ok .never
  | .str "fieldless" => .ok .fieldless
  | _ => .error "expected one of always, never, fieldless"

/-- Modelled from the spec: deserialize one schema field from the table.
Returns the decoded value (or `none` when the key is absent or fails to
decode) together with the per-field errors contributed: one `(field, error)`
pair exactly when the key is present but fails to decode. -/
def decodeField {α : Type} (t : TomlTable) (key : String)
    (dec : TomlValue → Except String α) : Option α × List (String × String) :=
  match lookupToml t key with
  | none => (none, [])
  | some v =>
    match dec v with
    | .ok a => (some a, [])
    | .error e => (none, [(key, e)])

/-- Modelled from the spec: `ConfigInput::from_toml`. Builds the sparse input
field by field; a field that fails to deserialize is reported in the scratch
error list and behaves as unset. One error per failed field. -/
def ConfigInput.from_toml (t : TomlTable) : ConfigInput × List (String × String) :=
  let f1 := decodeField t "completion.autoself.enable" decodeBool
  let f2 := decodeField t "completion.autoimport.enable" decodeBool
  let f3 := decodeField t "semanticHighlighting.strings.enable" decodeBool
  let f4 := decodeField t "inlayHints.discriminantHints.enable" decodeDiscriminantHints
  (⟨⟨f1.1, f2.1, f3.1, f4.1⟩⟩, f1.2 ++ f2.2 ++ f3.2 ++ f4.2)

/-- The outcome of syntactic TOML parsing of a UTF-8 string: the external
`toml::from_str` either fails (with some detail message) or yields a table. -/
inductive TomlSource
  | malformed (detail : String)
  | table (t : TomlTable)
deriving DecidableEq

/-- A file's byte contents, represented by the outcome of the external checks
the source performs on them: `content.is_empty()`, `std::str::from_utf8`
(failure carries the error detail), and the parsed text otherwise. -/
inductive ByteContent
  | empty
  | nonUtf8 (detail : String)
  | utf8 (src : TomlSource)
deriving DecidableEq

/-- One entry of the virtual file store: a path (used for diagnostics) and the
byte contents. -/
structure VfsFile where
  path : String
  content : ByteContent
deriving DecidableEq

/-- The virtual file store consumed by the tree: maps `FileId`s (here `Nat`) to
entries. The core only reads it. -/
structure Vfs where
  files : List (Nat × VfsFile)
deriving DecidableEq

/-- `vfs.file_contents(file_id)`; absent files read as empty (the core is only
handed change records for files the store knows). -/
def Vfs.file_contents (vfs : Vfs) (file_id : Nat) : ByteContent :=
  ((vfs.files.find? fun e => e.1 == file_id).map (·.2.content)).getD .empty

/-- `vfs.file_path(file_id)`, used for diagnostics. -/
def Vfs.file_path (vfs : Vfs) (file_id : Nat) : String :=
  ((vfs.files.find? fun e => e.1 == file_id).map (·.2.path)).getD ""

/-- `ConfigTreeError` from `tree.rs`. Error details (`std::str::Utf8Error`,
`toml::de::Error`) are carried as their display strings. -/
inductive ConfigTreeError
  | Removed
  | NonExistent
  | Utf8 (path : String) (detail : String)
  | TomlParse (path : String) (detail : String)
  | TomlDeserialize (path : String) (field : String) (error : String)
deriving DecidableEq

/-- `ConfigSource` from `tree.rs`. -/
inductive ConfigSource
  | ClientConfig
  | RaToml (file_id : Nat)
deriving DecidableEq

/-- `ConfigNode` from `tree.rs`: tree payload with a source tag, the optional
parsed input, and the key (`ComputedIdx`, here a plain index) into the computed
slot table. -/
structure ConfigNode where
  src : ConfigSource
  input : Option ConfigInput
  computed : Nat
deriving DecidableEq

/-- One `indextree` arena entry: the payload plus the parent link and the
removal flag. Sibling order is not modelled — the source never observes it
(children order under a parent is explicitly not observable). -/
structure ArenaNode where
  data : ConfigNode
  parent : Option Nat
  removed : Bool
deriving DecidableEq

/-- The `indextree::Arena<ConfigNode>`: nodes addressed by index
(`NodeId`, here a plain `Nat`). -/
structure Arena where
  nodes : List ArenaNode
deriving DecidableEq

/-- `arena.get(node_id)` — a bounds check plus node access. -/
def Arena.get (a : Arena) (n : Nat) : Option ArenaNode :=
  a.nodes[n]?

/-- `node_id.is_removed(&arena)`. Out-of-bounds ids read as not removed (the
source pairs this check with `get`, which reports `NonExistent` for those). -/
def Arena.is_removed (a : Arena) (n : Nat) : Bool :=
  match a.nodes[n]? with
  | some nd => nd.removed
  | none => false

/-- `arena.new_node(data)`: fresh id at the end of the arena, unparented, not
removed. -/
def Arena.new_node (a : Arena) (d : ConfigNode) : Nat × Arena :=
  (a.nodes.length, ⟨a.nodes ++ [⟨d, none, false⟩]⟩)

/-- `parent.append(child, &mut arena)` (indextree `checked_append` semantics):
panics — modelled as `none` — when the child is the parent itself or either
node is removed; otherwise detaches the child and attaches it under the
parent. indextree performs no ancestor check, so appending an ancestor under
its own descendant silently produces a cyclic structure. -/
def Arena.append (a : Arena) (parent child : Nat) : Option Arena :=
  if child = parent ∨ a.is_removed parent ∨ a.is_removed child then none
  else
    match a.nodes[child]? with
    | none => none
    | some nd => some ⟨a.nodes.set child { nd with parent := some parent }⟩

/-- The parent link of a node, if any. -/
def Arena.parentOf (a : Arena) (n : Nat) : Option Nat :=
  (a.nodes[n]?).bind (·.parent)

/-- Does the parent chain starting at `m` reach `target` within `fuel` steps?
For an acyclic arena, `fuel = a.nodes.length + 1` is exact. -/
def Arena.chainReaches (a : Arena) : Nat → Nat → Nat → Bool
  | 0, _, _ => false
  | fuel + 1, m, target =>
    m == target ||
      match a.parentOf m with
      | some p => a.chainReaches fuel p target
      | none => false

/-- Is `m` in the subtree rooted at `root` (i.e. `root` on `m`'s parent
chain, `m` itself included)? -/
def Arena.isDescendantOf (a : Arena) (m root : Nat) : Bool :=
  a.chainReaches (a.nodes.length + 1) m root

/-- `root.descendants(&arena)`: `root` and every node whose parent chain
reaches it. indextree enumerates them in pre-order; the source only ever folds
an order-insensitive effect (slot clearing) over them, so the enumeration
order here (ascending ids) is immaterial. -/
def Arena.descendants (a : Arena) (root : Nat) : List Nat :=
  (List.range a.nodes.length).filter fun m => a.isDescendantOf m root

/-- A shared `Arc<LocalConfigData>`: the payload plus its allocation id.
`Arc::new` hands out a fresh id (see `ConfigTree.allocArc`), `clone` keeps the
id, and `Arc::ptr_eq` compares ids. -/
structure ArcLocal where
  id : Nat
  val : LocalConfigData
deriving DecidableEq

/-- `Arc::ptr_eq` on shared `LocalConfigData` values. -/
def ArcLocal.ptr_eq (a b : ArcLocal) : Bool := a.id == b.id

/-- The `ConfigTree` state from `tree.rs`. The slot map
`SlotMap<ComputedIdx, Option<Arc<LocalConfigData>>>` is a list indexed by slot
key; keys are allocated at the end and never freed by this code. `nextArc`
instruments the global allocator for `Arc<LocalConfigData>` so that pointer
identity is expressible; it is not part of the Rust struct. -/
structure ConfigTree where
  tree : Arena
  client_config : Option ConfigInput
  xdg_config_node_id : Nat
  ra_file_id_map : List (Nat × Nat)
  computed : List (Option ArcLocal)
  nextArc : Nat
deriving DecidableEq

/-- Lookup in the `file_id → node_id` map (`FxHashMap` semantics). -/
def mapLookup (m : List (Nat × Nat)) (k : Nat) : Option Nat :=
  (m.find? fun e => e.1 == k).map (·.2)

/-- Insert into the `file_id → node_id` map, overwriting any previous
binding. -/
def mapInsert (m : List (Nat × Nat)) (k v : Nat) : List (Nat × Nat) :=
  (k, v) :: m.filter fun e => ¬ e.1 == k

/-- `Arc::new` on a `LocalConfigData`: a fresh allocation id. -/
def ConfigTree.allocArc (s : ConfigTree) (v : LocalConfigData) : ArcLocal × ConfigTree :=
  (⟨s.nextArc, v⟩, { s with nextArc := s.nextArc + 1 })

/-- `ConfigTree::new(xdg_config_file_id)`: one unparented XDG node with an
empty slot, mapped from the XDG file id. -/
def ConfigTree.new (xdg_config_file_id : Nat) : ConfigTree where
  tree := ⟨[⟨⟨.RaToml xdg_config_file_id, none, 0⟩, none, false⟩]⟩
  client_config := none
  xdg_config_node_id := 0
  ra_file_id_map := [(xdg_config_file_id, 0)]
  computed := [none]
  nextArc := 0

/-- `ConfigTree::read_only_inner`: reject removed nodes, then read the node's
slot. A slot-map index always holds a valid key here (invariant I2); an
out-of-range read is treated as an empty slot. -/
def ConfigTree.read_only_inner (s : ConfigTree) (node_id : Nat) :
    Except ConfigTreeError (Option ArcLocal) :=
  if s.tree.is_removed node_id then .error .Removed
  else
    match s.tree.get node_id with
    | none => .error .NonExistent
    | some nd => .ok (s.computed[nd.data.computed]?).join

/-- `ConfigTree::read_only`: map the file id, read the cached slot, and — when
a client config is set — overlay it as the outermost layer into a fresh
allocation. Returns the (possibly bumped) allocator alongside. -/
def ConfigTree.read_only (s : ConfigTree) (file_id : Nat) :
    Except ConfigTreeError (Option (ArcLocal × ConfigTree)) :=
  match mapLookup s.ra_file_id_map file_id with
  | none => .error .NonExistent
  | some node_id =>
    (s.read_only_inner node_id).map fun stored =>
      stored.map fun st =>
        match s.client_config with
        | some client_config =>
          s.allocArc (st.val.clone_with_overrides client_config.local_)
        | none => (st, s)

/-- `ConfigTree::compute_inner`, with explicit fuel standing for the call
stack: `none` models non-termination of the Rust recursion (reachable only on
a cyclic parent structure). On a cache hit the stored `Arc` is returned
as-is; on a miss the value is computed from the parent chain, stored in the
node's slot, and returned. -/
def ConfigTree.compute_inner :
    Nat → ConfigTree → Nat → Option (Except ConfigTreeError (ArcLocal × ConfigTree))
  | 0, _, _ => none
  | fuel + 1, s, node_id =>
    if s.tree.is_removed node_id then some (.error .Removed)
    else
      match s.tree.get node_id with
      | none => some (.error .NonExistent)
      | some nd =>
        let idx := nd.data.computed
        match (s.computed[idx]?).join with
        | some slot => some (.ok (slot, s))
        | none =>
          match nd.parent with
          | some parent =>
            match ConfigTree.compute_inner fuel s parent with
            | none => none
            | some (.error e) => some (.error e)
            | some (.ok (parent_computed, s1)) =>
              let r :=
                match nd.data.input with
                | some input =>
                  s1.allocArc (parent_computed.val.clone_with_overrides input.local_)
                | none => (parent_computed, s1)
              some (.ok (r.1, { r.2 with computed := r.2.computed.set idx (some r.1) }))
          | none =>
            let r :=
              match nd.data.input with
              | some input =>
                s.allocArc (RootLocalConfigData.from_root_input input.local_).fst
              | none => s.allocArc LocalConfigData.default
            some (.ok (r.1, { r.2 with computed := r.2.computed.set idx (some r.1) }))

/-- `ConfigTree::compute`: map the file id, compute the tree-only value, then
overlay the client config (if set) as the outermost layer into a fresh
allocation. The fuel `nodes.length + 1` covers every acyclic parent chain.
Errors escape before any state mutation, so no state accompanies them. -/
def ConfigTree.compute (s : ConfigTree) (file_id : Nat) :
    Option (Except ConfigTreeError (ArcLocal × ConfigTree)) :=
  match mapLookup s.ra_file_id_map file_id with
  | none => some (.error .NonExistent)
  | some node_id =>
    match ConfigTree.compute_inner (s.tree.nodes.length + 1) s node_id with
    | none => none
    | some (.error e) => some (.error e)
    | some (.ok (computed, s1)) =>
      match s1.client_config with
      | some client_config =>
        some (.ok (s1.allocArc (computed.val.clone_with_overrides client_config.local_)))
      | none => some (.ok (computed, s1))

/-- `ConcurrentConfigTree::read_config`: try the shared-access read first; on a
cache miss upgrade and compute. `none` models non-termination (cyclic parent
structure). -/
def ConcurrentConfigTree.read_config (s : ConfigTree) (file_id : Nat) :
    Option (Except ConfigTreeError ArcLocal × ConfigTree) :=
  match s.read_only file_id with
  | .error e => some (.error e, s)
  | .ok (some (computed, s1)) => some (.ok computed, s1)
  | .ok none =>
    match s.compute file_id with
    | none => none
    | some (.error e) => some (.error e, s)
    | some (.ok (v, s1)) => some (.ok v, s1)

/-- `ConfigTree::insert_toml`: allocate an empty slot, create an unparented
node, install the file-id mapping. The source panics — modelled as `none` —
if the file id was already mapped. -/
def ConfigTree.insert_toml (s : ConfigTree) (file_id : Nat) (input : Option ConfigInput) :
    Option (Nat × ConfigTree) :=
  let computedIdx := s.computed.length
  let r := s.tree.new_node ⟨.RaToml file_id, input, computedIdx⟩
  match mapLookup s.ra_file_id_map file_id with
  | some _ => none
  | none =>
    some (r.1,
      { s with
        tree := r.2
        computed := s.computed ++ [none]
        ra_file_id_map := mapInsert s.ra_file_id_map file_id r.1 })

/-- The body of the `invalidate_subtree` loop. The source statement
`self.computed.get_mut(desc.get().computed).take()` applies `Option::take` to
the temporary `Option<&mut Option<Arc<LocalConfigData>>>` that
`SlotMap::get_mut` returns — method resolution finds `take` on that outer
`Option` first, so the taken value is the borrowed reference, not the slot's
contents. The slot itself is never written: the step leaves the state
unchanged (the node access is kept for shape). -/
def clearStep (s : ConfigTree) (acc : ConfigTree) (x : Nat) : ConfigTree :=
  match s.tree.get x with
  | none => acc
  | some _desc => acc

/-- `ConfigTree::invalidate_subtree`: iterate over the node and its
descendants, applying the (inadvertently slot-preserving, see `clearStep`)
take to each one's slot. -/
def ConfigTree.invalidate_subtree (s : ConfigTree) (node_id : Nat) : ConfigTree :=
  (s.tree.descendants node_id).foldl (clearStep s) s

/-- `ConfigTree::update_toml`: insert if the file id is unmapped; otherwise
replace the node's input and invalidate its subtree. `none` models the
`insert_toml` panic (unreachable from here: insertion happens only when the
lookup failed). -/
def ConfigTree.update_toml (s : ConfigTree) (file_id : Nat) (input : Option ConfigInput) :
    Option (Except ConfigTreeError (Nat × ConfigTree)) :=
  match mapLookup s.ra_file_id_map file_id with
  | none => (s.insert_toml file_id input).map .ok
  | some node_id =>
    if s.tree.is_removed node_id then some (.error .Removed)
    else
      match s.tree.get node_id with
      | none => some (.error .NonExistent)
      | some nd =>
        let s1 := { s with
          tree := ⟨s.tree.nodes.set node_id { nd with data := { nd.data with input := input } }⟩ }
        some (.ok (node_id, s1.invalidate_subtree node_id))

/-- `ConfigTree::ensure_node`: the mapped node, or a fresh unparented
placeholder with no input. -/
def ConfigTree.ensure_node (s : ConfigTree) (file_id : Nat) : Option (Nat × ConfigTree) :=
  match mapLookup s.ra_file_id_map file_id with
  | none => s.insert_toml file_id none
  | some node_id => some (node_id, s)

/-- `ConfigTree::remove_toml`: clear the node's input and invalidate its
subtree; a file id that was never mapped (or a removed node) is a silent
no-op, signalled by the `Option Unit` component. -/
def ConfigTree.remove_toml (s : ConfigTree) (file_id : Nat) : ConfigTree × Option Unit :=
  match mapLookup s.ra_file_id_map file_id with
  | none => (s, none)
  | some node_id =>
    if s.tree.is_removed node_id then (s, none)
    else
      match s.tree.get node_id with
      | none => (s, none)
      | some nd =>
        let s1 := { s with
          tree := ⟨s.tree.nodes.set node_id { nd with data := { nd.data with input := none } }⟩ }
        (s1.invalidate_subtree node_id, some ())

/-- `vfs::ChangeKind`. -/
inductive ChangeKind
  | Create
  | Modify
  | Delete
deriving DecidableEq

/-- `vfs::ChangedFile`, as far as the tree consumes it. -/
structure ChangedFile where
  file_id : Nat
  change_kind : ChangeKind
deriving DecidableEq

/-- `ConfigParent` from `tree.rs`. -/
inductive ConfigParent
  | UserDefault
  | Parent (file_id : Nat)
deriving DecidableEq

/-- `ConfigParentChange` from `tree.rs`. -/
structure ConfigParentChange where
  file_id : Nat
  parent : ConfigParent
deriving DecidableEq

/-- `ConfigChanges` from `tree.rs`. -/
structure ConfigChanges where
  ra_toml_changes : List ChangedFile
  client_change : Option (Option ConfigInput)
  parent_changes : List ConfigParentChange
deriving DecidableEq

/-- `parse_toml` from `tree.rs`: empty content yields no input and no error;
non-UTF-8 content a `Utf8` error; syntactically invalid content a `TomlParse`
error; otherwise the per-field scratch errors of `ConfigInput::from_toml` are
drained into the error sink as `TomlDeserialize` errors. Errors are appended
to the sink passed in. -/
def parse_toml (file_id : Nat) (vfs : Vfs) (errors : List ConfigTreeError) :
    Option ConfigInput × List ConfigTreeError :=
  let content := vfs.file_contents file_id
  let path := vfs.file_path file_id
  match content with
  | .empty => (none, errors)
  | .nonUtf8 e => (none, errors ++ [.Utf8 path e])
  | .utf8 (.malformed e) => (none, errors ++ [.TomlParse path e])
  | .utf8 (.table t) =>
    let r := ConfigInput.from_toml t
    (some r.1, errors ++ r.2.map fun fe => .TomlDeserialize path fe.1 fe.2)

/-- The parent-changes loop of `ConfigTree::apply_changes`: ensure the node
and its parent exist, then append. `none` models a panic (indextree append
preconditions / `insert_toml` double-insert). -/
def ConfigTree.applyParentChanges : ConfigTree → List ConfigParentChange → Option ConfigTree
  | s, [] => some s
  | s, pc :: rest =>
    match s.ensure_node pc.file_id with
    | none => none
    | some (node_id, s1) =>
      let pr : Option (Nat × ConfigTree) :=
        match pc.parent with
        | .UserDefault => some (s1.xdg_config_node_id, s1)
        | .Parent parent_file_id => s1.ensure_node parent_file_id
      match pr with
      | none => none
      | some (parent_node_id, s2) =>
        match s2.tree.append parent_node_id node_id with
        | none => none
        | some tree1 => ConfigTree.applyParentChanges { s2 with tree := tree1 } rest

/-- The file-changes loop of `ConfigTree::apply_changes`: `Create` parses and
updates, discarding any update error; `Modify` parses and updates, surfacing
the error; `Delete` removes, ignoring the no-op signal. -/
def ConfigTree.applyTomlChanges :
    ConfigTree → List ChangedFile → Vfs → List ConfigTreeError →
      Option (ConfigTree × List ConfigTreeError)
  | s, [], _, errors => some (s, errors)
  | s, change :: rest, vfs, errors =>
    match change.change_kind with
    | .Create =>
      let pr := parse_toml change.file_id vfs errors
      match s.update_toml change.file_id pr.1 with
      | none => none
      | some (.error _e) => ConfigTree.applyTomlChanges s rest vfs pr.2
      | some (.ok (_n, s1)) => ConfigTree.applyTomlChanges s1 rest vfs pr.2
    | .Modify =>
      let pr := parse_toml change.file_id vfs errors
      match s.update_toml change.file_id pr.1 with
      | none => none
      | some (.error e) => ConfigTree.applyTomlChanges s rest vfs (pr.2 ++ [e])
      | some (.ok (_n, s1)) => ConfigTree.applyTomlChanges s1 rest vfs pr.2
    | .Delete =>
      let r := s.remove_toml change.file_id
      ConfigTree.applyTomlChanges r.1 rest vfs errors

/-- `ConfigTree::apply_changes`: client change first, then parent changes,
then file changes; errors are accumulated across the batch and returned. -/
def ConfigTree.apply_changes (s : ConfigTree) (changes : ConfigChanges) (vfs : Vfs) :
    Option (ConfigTree × List ConfigTreeError) :=
  let s0 :=
    match changes.client_change with
    | some change => { s with client_config := change }
    | none => s
  match s0.applyParentChanges changes.parent_changes with
  | none => none
  | some s1 => s1.applyTomlChanges changes.ra_toml_changes vfs []

/-- One operation against the `ConcurrentConfigTree` facade. -/
inductive Op
  | apply (changes : ConfigChanges) (vfs : Vfs)
  | read (file_id : Nat)

/-- Run a sequence of facade operations, collecting every error list returned
by `apply_changes` (flattened) and every `read_config` outcome. -/
def runOps : ConfigTree → List Op → Option (ConfigTree × List ConfigTreeError × List (Except ConfigTreeError ArcLocal))
  | s, [] => some (s, [], [])
  | s, .apply changes vfs :: rest =>
    match s.apply_changes changes vfs with
    | none => none
    | some (s1, errs) =>
      (runOps s1 rest).map fun r => (r.1, errs ++ r.2.1, r.2.2)
  | s, .read file_id :: rest =>
    match ConcurrentConfigTree.read_config s file_id with
    | none => none
    | some (r, s1) =>
      (runOps s1 rest).map fun t => (t.1, t.2.1, r :: t.2.2)

/-- Invariant I2: every live node's `computed` key indexes a valid slot. -/
def slotsValid (s : ConfigTree) : Prop :=
  ∀ nd ∈ s.tree.nodes, nd.data.computed < s.computed.length

/-- No node of the arena is marked removed. -/
def noRemoved (s : ConfigTree) : Prop :=
  ∀ nd ∈ s.tree.nodes, nd.removed = false

instance (s : ConfigTree) : Decidable (slotsValid s) := by
  unfold slotsValid
  infer_instance

instance (s : ConfigTree) : Decidable (noRemoved s) := by
  unfold noRemoved
  infer_instance

/-- Concrete trace for the cached-read claims: a fresh tree whose client
config is set to an (empty) input. -/
def C4state : ConfigTree :=
  (((ConfigTree.new 0).apply_changes ⟨[], some (some ⟨{}⟩), []⟩ ⟨[]⟩).map (·.1)).getD
    (ConfigTree.new 0)

/-- First read of the XDG file on `C4state`. -/
def C4read1 : Option (Except ConfigTreeError ArcLocal × ConfigTree) :=
  ConcurrentConfigTree.read_config C4state 0

/-- Second, consecutive read of the XDG file. -/
def C4read2 : Option (Except ConfigTreeError ArcLocal × ConfigTree) :=
  C4read1.bind fun r => ConcurrentConfigTree.read_config r.2 0

/-- Concrete trace for the reparent-invalidation claim: a fresh tree where
file 2's node is attached under file 1's node. -/
def C3state1 : ConfigTree :=
  (((ConfigTree.new 0).apply_changes ⟨[], none, [⟨2, .Parent 1⟩]⟩ ⟨[]⟩).map (·.1)).getD
    (ConfigTree.new 0)

/-- Read of file 2 on `C3state1` (fills the caches along its chain). -/
def C3read1 : Option (Except ConfigTreeError ArcLocal × ConfigTree) :=
  ConcurrentConfigTree.read_config C3state1 2

/-- The state after that first read. -/
def C3state2 : ConfigTree := (C3read1.map (·.2)).getD C3state1

/-- The batch that reparents file 2's node under the XDG node. -/
def C3apply2 : Option (ConfigTree × List ConfigTreeError) :=
  C3state2.apply_changes ⟨[], none, [⟨2, .UserDefault⟩]⟩ ⟨[]⟩

/-- The state after the reparent batch. -/
def C3state3 : ConfigTree := (C3apply2.map (·.1)).getD C3state2

/-- Read of file 2 after the reparent. -/
def C3read2 : Option (Except ConfigTreeError ArcLocal × ConfigTree) :=
  ConcurrentConfigTree.read_config C3state3 2

/-- Concrete trace for the cycle claim: file 2's node is first attached under
file 1's node. -/
def C5state1 : ConfigTree :=
  (((ConfigTree.new 0).apply_changes ⟨[], none, [⟨2, .Parent 1⟩]⟩ ⟨[]⟩).map (·.1)).getD
    (ConfigTree.new 0)

/-- The batch that reparents file 1's node under file 2's node — i.e. under
its own descendant. -/
def C5apply2 : Option (ConfigTree × List ConfigTreeError) :=
  C5state1.apply_changes ⟨[], none, [⟨1, .Parent 2⟩]⟩ ⟨[]⟩

/-- The state after the cycle-creating batch. -/
def C5state2 : ConfigTree := (C5apply2.map (·.1)).getD C5state1

/-- Store for the update-invalidation trace: file 1 holds a table setting
`completion.autoself.enable = false`. -/
def C7vfs : Vfs :=
  ⟨[(1, ⟨"/root/rust-analyzer.toml",
    .utf8 (.table [("completion.autoself.enable", .bool false)])⟩)]⟩

/-- Update-invalidation trace: a fresh tree where file 2's node is attached
under file 1's node. -/
def C7state1 : ConfigTree :=
  (((ConfigTree.new 0).apply_changes ⟨[], none, [⟨2, .Parent 1⟩]⟩ C7vfs).map (·.1)).getD
    (ConfigTree.new 0)

/-- Read of file 2 on `C7state1` (fills the caches along its chain with the
shared default value). -/
def C7read1 : Option (Except ConfigTreeError ArcLocal × ConfigTree) :=
  ConcurrentConfigTree.read_config C7state1 2

/-- The state after that first read. -/
def C7state2 : ConfigTree := (C7read1.map (·.2)).getD C7state1

/-- The batch that creates (updates) file 1's contents. -/
def C7apply2 : Option (ConfigTree × List ConfigTreeError) :=
  C7state2.apply_changes ⟨[⟨1, .Create⟩], none, []⟩ C7vfs

/-- The state after the update batch. -/
def C7state3 : ConfigTree := (C7apply2.map (·.1)).getD C7state2

/-- Read of file 2 after the update of file 1. -/
def C7read2 : Option (Except ConfigTreeError ArcLocal × ConfigTree) :=
  ConcurrentConfigTree.read_config C7state3 2

/-- C8: a batch holding only a client change replaces `client_config` and
leaves everything else — in particular every computed-slot entry, hence their
pointer identities — untouched, returning no error. -/
theorem C8_client_change_alone (s : ConfigTree) (c : Option ConfigInput) (vfs : Vfs) :
    s.apply_changes ⟨[], some c, []⟩ vfs = some ({ s with client_config := c }, []) ∧
    ({ s with client_config := c } : ConfigTree).computed = s.computed := by
  constructor
  · rfl
  · rfl

/-- C10: a `Delete` change for a file id that was never introduced is silently
ignored: `remove_toml` signals a no-op without touching the state, and a batch
holding only that change returns the state unchanged with no error. -/
theorem C10_delete_nonexistent (s : ConfigTree) (file_id : Nat) (vfs : Vfs)
    (h : mapLookup s.ra_file_id_map file_id = none) :
    s.remove_toml file_id = (s, none) ∧
    s.apply_changes ⟨[⟨file_id, .Delete⟩], none, []⟩ vfs = some (s, []) := by
  have h1 : s.remove_toml file_id = (s, none) := by
    unfold ConfigTree.remove_toml
    rw [h]
  refine ⟨h1, ?_⟩
  unfold ConfigTree.apply_changes ConfigTree.applyParentChanges ConfigTree.applyTomlChanges
  simp [h1, ConfigTree.applyTomlChanges]

/-- Witness for C10 at a concrete input: file 7 was never introduced into a
fresh tree. -/
theorem C10_delete_nonexistent_witness :
    (ConfigTree.new 0).remove_toml 7 = (ConfigTree.new 0, none) ∧
    (ConfigTree.new 0).apply_changes ⟨[⟨7, .Delete⟩], none, []⟩ ⟨[]⟩ =
      some (ConfigTree.new 0, []) :=
  C10_delete_nonexistent (ConfigTree.new 0) 7 ⟨[]⟩ (by decide)

/-- C3 (divergence witness): reattaching a node does not empty any cached
slot. File 2's node (node 1) is read while a child of file 1's node (node 2),
caching the shared default value (allocation id 0). The batch that reparents
it under the XDG node succeeds, changes the parent edge, yet the next read
returns the stale cached value — pointer-equal to the pre-reparent result —
and the node's slot is still full. -/
theorem C3_reparent_does_not_invalidate :
    C3apply2 = some (C3state3, []) ∧
    C3state1.tree.parentOf 1 = some 2 ∧
    C3state3.tree.parentOf 1 = some 0 ∧
    (C3read1.map (·.1)) = some (.ok ⟨0, LocalConfigData.default⟩) ∧
    (C3read2.map (·.1)) = some (.ok ⟨0, LocalConfigData.default⟩) ∧
    C3state3.computed[1]? = some (some ⟨0, LocalConfigData.default⟩) ∧
    ArcLocal.ptr_eq ⟨0, LocalConfigData.default⟩ ⟨0, LocalConfigData.default⟩ = true := by
  decide

/-- C5 (divergence witness): in `C5state1`, file 1's node (node 2) has file
2's node (node 1) as its descendant; the batch reparenting node 2 under node 1
nevertheless succeeds with no error, changes the tree, produces a parent
cycle, and the next read of file 1 no longer terminates (modelled as `none`). -/
theorem C5_cycle_not_rejected :
    C5state1.tree.isDescendantOf 1 2 = true ∧
    C5apply2 = some (C5state2, []) ∧
    C5state2 ≠ C5state1 ∧
    C5state2.tree.parentOf 2 = some 1 ∧
    C5state2.tree.parentOf 1 = some 2 ∧
    ConcurrentConfigTree.read_config C5state2 1 = none := by
  decide

/-- C4 (counterexample): with a client config set, two consecutive reads of
the same file with no intervening write return value-equal but not
pointer-equal results — each read overlays the client layer into a fresh
allocation (ids 1 and 2). -/
theorem C4_counterexample :
    (ConfigTree.new 0).apply_changes ⟨[], some (some ⟨{}⟩), []⟩ ⟨[]⟩ = some (C4state, []) ∧
    C4state.client_config = some ⟨{}⟩ ∧
    (C4read1.map (·.1)) = some (.ok ⟨1, LocalConfigData.default⟩) ∧
    (C4read2.map (·.1)) = some (.ok ⟨2, LocalConfigData.default⟩) ∧
    ArcLocal.ptr_eq ⟨1, LocalConfigData.default⟩ ⟨2, LocalConfigData.default⟩ = false := by
  decide

/-- A successful `compute_inner` leaves the tree, the client config, the XDG
node, the file-id map and the slot-table length unchanged, never shrinks the
allocator, and stores the returned `Arc` (same allocation) in the node's
slot. -/
theorem compute_inner_ok_spec {fuel : Nat} {s : ConfigTree} {node_id : Nat} {v : ArcLocal}
    {s' : ConfigTree} (h : ConfigTree.compute_inner fuel s node_id = some (.ok (v, s'))) :
    s'.tree = s.tree ∧ s'.client_config = s.client_config ∧
    s'.xdg_config_node_id = s.xdg_config_node_id ∧
    s'.ra_file_id_map = s.ra_file_id_map ∧
    s'.computed.length = s.computed.length ∧
    s.nextArc ≤ s'.nextArc ∧
    (∀ nd, s.tree.get node_id = some nd → nd.data.computed < s.computed.length →
      s'.computed[nd.data.computed]? = some (some v)) := by
  induction fuel generalizing s node_id v s' with
  | zero => simp [ConfigTree.compute_inner] at h
  | succ fuel ih =>
    rw [ConfigTree.compute_inner] at h
    cases hrm : s.tree.is_removed node_id with
    | true => simp [hrm] at h
    | false =>
      simp only [hrm, Bool.false_eq_true, if_false] at h
      cases hget : s.tree.get node_id with
      | none => simp [hget] at h
      | some nd =>
        simp only [hget] at h
        cases hslot : (s.computed[nd.data.computed]?).join with
        | some slotv =>
          simp only [hslot, Option.some_inj, Except.ok.injEq, Prod.mk.injEq] at h
          obtain ⟨hv, hs⟩ := h
          subst hv
          subst hs
          refine ⟨rfl, rfl, rfl, rfl, rfl, le_refl _, ?_⟩
          intro nd' hnd' _
          cases hnd'
          rw [Option.join_eq_some.mp hslot]
        | none =>
          simp only [hslot] at h
          cases hp : nd.parent with
          | some parent =>
            simp only [hp] at h
            cases hrec : ConfigTree.compute_inner fuel s parent with
            | none => simp [hrec] at h
            | some r =>
              cases r with
              | error e => simp [hrec] at h
              | ok pr =>
                obtain ⟨pv, s1⟩ := pr
                simp only [hrec] at h
                have hf := ih hrec
                obtain ⟨hft, hfc, hfx, hfm, hfl, hfa, _⟩ := hf
                cases hin : nd.data.input with
                | some input =>
                  simp only [hin, ConfigTree.allocArc, Option.some_inj, Except.ok.injEq,
                    Prod.mk.injEq] at h
                  obtain ⟨hv, hs⟩ := h
                  subst hv
                  subst hs
                  refine ⟨hft, hfc, hfx, hfm, by simpa [List.length_set] using hfl,
                    le_trans hfa (Nat.le_succ _), ?_⟩
                  intro nd' hnd' hlt
                  cases hnd'
                  exact List.getElem?_set_self (by rw [hfl]; exact hlt)
                | none =>
                  simp only [hin, Option.some_inj, Except.ok.injEq, Prod.mk.injEq] at h
                  obtain ⟨hv, hs⟩ := h
                  subst hv
                  subst hs
                  refine ⟨hft, hfc, hfx, hfm, by simpa [List.length_set] using hfl, hfa, ?_⟩
                  intro nd' hnd' hlt
                  cases hnd'
                  exact List.getElem?_set_self (by rw [hfl]; exact hlt)
          | none =>
            simp only [hp] at h
            cases hin : nd.data.input with
            | some input =>
              simp only [hin, ConfigTree.allocArc, Option.some_inj, Except.ok.injEq,
                Prod.mk.injEq] at h
              obtain ⟨hv, hs⟩ := h
              subst hv
              subst hs
              refine ⟨rfl, rfl, rfl, rfl, by simp [List.length_set], Nat.le_succ _, ?_⟩
              intro nd' hnd' hlt
              cases hnd'
              exact List.getElem?_set_self hlt
            | none =>
              simp only [hin, ConfigTree.allocArc, Option.some_inj, Except.ok.injEq,
                Prod.mk.injEq] at h
              obtain ⟨hv, hs⟩ := h
              subst hv
              subst hs
              refine ⟨rfl, rfl, rfl, rfl, by simp [List.length_set], Nat.le_succ _, ?_⟩
              intro nd' hnd' hlt
              cases hnd'
              exact List.getElem?_set_self hlt

/-- C1: one evaluation step of the computation algorithm, on the node `nd`
for a file. A non-empty slot is returned as-is with the state untouched (no
recomputation). On a miss with a parent `p`, the result is the parent's
computed value overlaid with `input.local` when the input is set, and the
parent's value itself (the same shared `Arc`) when it is not. On a miss at a
root node the result is `RootLocalConfigData::from_root_input(input.local)`
when the input is set and `LocalConfigData::default()` otherwise. In every
miss case the result is stored in the node's slot before being returned. -/
theorem C1_compute_inner_cases (fuel : Nat) (s : ConfigTree) (node_id : Nat) (nd : ArenaNode)
    (hget : s.tree.get node_id = some nd)
    (hrm : s.tree.is_removed node_id = false) :
    (∀ v, (s.computed[nd.data.computed]?).join = some v →
        ConfigTree.compute_inner (fuel + 1) s node_id = some (.ok (v, s)))
    ∧
    ((s.computed[nd.data.computed]?).join = none →
      ∀ p, nd.parent = some p →
      ∀ pv s1, ConfigTree.compute_inner fuel s p = some (.ok (pv, s1)) →
        ∃ v s2, ConfigTree.compute_inner (fuel + 1) s node_id = some (.ok (v, s2)) ∧
          (∀ input, nd.data.input = some input →
            v.val = pv.val.clone_with_overrides input.local_) ∧
          (nd.data.input = none → v = pv) ∧
          (nd.data.computed < s.computed.length →
            s2.computed[nd.data.computed]? = some (some v)))
    ∧
    ((s.computed[nd.data.computed]?).join = none → nd.parent = none →
      ∃ v s2, ConfigTree.compute_inner (fuel + 1) s node_id = some (.ok (v, s2)) ∧
        (∀ input, nd.data.input = some input →
          v.val = (RootLocalConfigData.from_root_input input.local_).fst) ∧
        (nd.data.input = none → v.val = LocalConfigData.default) ∧
        (nd.data.computed < s.computed.length →
          s2.computed[nd.data.computed]? = some (some v))) := by
  refine ⟨?_, ?_, ?_⟩
  · intro v hslot
    rw [ConfigTree.compute_inner]
    simp only [hrm, Bool.false_eq_true, if_false, hget, hslot]
  · intro hslot p hp pv s1 hrec
    have hf := compute_inner_ok_spec hrec
    cases hin : nd.data.input with
    | some input =>
      refine ⟨⟨s1.nextArc, pv.val.clone_with_overrides input.local_⟩,
        { s1 with
          nextArc := s1.nextArc + 1
          computed := s1.computed.set nd.data.computed
            (some ⟨s1.nextArc, pv.val.clone_with_overrides input.local_⟩) }, ?_, ?_, ?_, ?_⟩
      · rw [ConfigTree.compute_inner]
        simp only [hrm, Bool.false_eq_true, if_false, hget, hslot, hp, hrec, hin,
          ConfigTree.allocArc]
      · intro input' hin'
        cases hin'
        rfl
      · intro hnone
        cases hnone
      · intro hlt
        exact List.getElem?_set_self (by rw [hf.2.2.2.2.1]; exact hlt)
    | none =>
      refine ⟨pv, { s1 with computed := s1.computed.set nd.data.computed (some pv) },
        ?_, ?_, ?_, ?_⟩
      · rw [ConfigTree.compute_inner]
        simp only [hrm, Bool.false_eq_true, if_false, hget, hslot, hp, hrec, hin]
      · intro input' hin'
        cases hin'
      · intro _
        rfl
      · intro hlt
        exact List.getElem?_set_self (by rw [hf.2.2.2.2.1]; exact hlt)
  · intro hslot hp
    cases hin : nd.data.input with
    | some input =>
      refine ⟨⟨s.nextArc, (RootLocalConfigData.from_root_input input.local_).fst⟩,
        { s with
          nextArc := s.nextArc + 1
          computed := s.computed.set nd.data.computed
            (some ⟨s.nextArc, (RootLocalConfigData.from_root_input input.local_).fst⟩) },
        ?_, ?_, ?_, ?_⟩
      · rw [ConfigTree.compute_inner]
        simp only [hrm, Bool.false_eq_true, if_false, hget, hslot, hp, hin,
          ConfigTree.allocArc]
      · intro input' hin'
        cases hin'
        rfl
      · intro hnone
        cases hnone
      · intro hlt
        exact List.getElem?_set_self hlt
    | none =>
      refine ⟨⟨s.nextArc, LocalConfigData.default⟩,
        { s with
          nextArc := s.nextArc + 1
          computed := s.computed.set nd.data.computed
            (some ⟨s.nextArc, LocalConfigData.default⟩) }, ?_, ?_, ?_, ?_⟩
      · rw [ConfigTree.compute_inner]
        simp only [hrm, Bool.false_eq_true, if_false, hget, hslot, hp, hin,
          ConfigTree.allocArc]
      · intro input' hin'
        cases hin'
      · intro _
        rfl
      · intro hlt
        exact List.getElem?_set_self hlt

/-- Witness for C1: the root branch instantiated at the XDG node of a fresh
tree (no parent, no input, empty slot). -/
theorem C1_compute_inner_cases_witness :
    ∃ v s2, ConfigTree.compute_inner 2 (ConfigTree.new 0) 0 = some (.ok (v, s2)) ∧
      (∀ input, (none : Option ConfigInput) = some input →
        v.val = (RootLocalConfigData.from_root_input input.local_).fst) ∧
      ((none : Option ConfigInput) = none → v.val = LocalConfigData.default) ∧
      ((0 : Nat) < (ConfigTree.new 0).computed.length →
        s2.computed[(0 : Nat)]? = some (some v)) :=
  (C1_compute_inner_cases 1 (ConfigTree.new 0) 0 ⟨⟨.RaToml 0, none, 0⟩, none, false⟩
    rfl rfl).2.2 rfl rfl

/-- `compute_inner` never consults `client_config`: running it on a state with
the client config replaced gives the same outcome with the client config
passed through. -/
theorem compute_inner_client (c : Option ConfigInput) :
    ∀ (fuel : Nat) (s : ConfigTree) (node_id : Nat),
      ConfigTree.compute_inner fuel { s with client_config := c } node_id =
        (ConfigTree.compute_inner fuel s node_id).map
          fun r => r.map fun p => (p.1, { p.2 with client_config := c }) := by
  intro fuel
  induction fuel with
  | zero => intro s node_id; rfl
  | succ fuel ih =>
    intro s node_id
    rw [ConfigTree.compute_inner, ConfigTree.compute_inner]
    cases hrm : s.tree.is_removed node_id with
    | true => simp only [hrm, if_true]; rfl
    | false =>
      simp only [hrm, Bool.false_eq_true, if_false]
      cases hget : s.tree.get node_id with
      | none => simp only [hget]; rfl
      | some nd =>
        simp only [hget]
        cases hslot : (s.computed[nd.data.computed]?).join with
        | some slotv => simp only [hslot]; rfl
        | none =>
          simp only [hslot]
          cases hp : nd.parent with
          | some parent =>
            simp only [hp, ih s parent]
            cases hrec : ConfigTree.compute_inner fuel s parent with
            | none => simp only [hrec]; rfl
            | some r =>
              cases r with
              | error e => simp only [hrec]; rfl
              | ok pr =>
                obtain ⟨pv, s1⟩ := pr
                simp only [hrec]
                cases hin : nd.data.input with
                | some input => simp only [hin, ConfigTree.allocArc]; rfl
                | none => simp only [hin]; rfl
          | none =>
            cases hin : nd.data.input with
            | some input => simp only [hp, hin, ConfigTree.allocArc]; rfl
            | none => simp only [hp, hin, ConfigTree.allocArc]; rfl

/-- A successful `compute_inner` presupposes an addressable, unremoved node. -/
theorem compute_inner_ok_node {fuel : Nat} {s : ConfigTree} {node_id : Nat} {v : ArcLocal}
    {s' : ConfigTree} (h : ConfigTree.compute_inner fuel s node_id = some (.ok (v, s'))) :
    s.tree.is_removed node_id = false ∧ ∃ nd, s.tree.get node_id = some nd := by
  cases fuel with
  | zero => simp [ConfigTree.compute_inner] at h
  | succ fuel =>
    rw [ConfigTree.compute_inner] at h
    cases hrm : s.tree.is_removed node_id with
    | true => simp [hrm] at h
    | false =>
      cases hget : s.tree.get node_id with
      | none => simp [hrm, hget] at h
      | some nd => exact ⟨rfl, nd, rfl⟩

/-- Anatomy of a cache-hit `read_only`: the node exists, its slot holds a
stored value, and the returned value is that stored `Arc` itself when no
client config is set, and a fresh overlay allocation otherwise. -/
theorem read_only_ok_some_spec {s : ConfigTree} {file_id : Nat} {v : ArcLocal}
    {s1 : ConfigTree} (h : s.read_only file_id = .ok (some (v, s1))) :
    ∃ node_id nd stored,
      mapLookup s.ra_file_id_map file_id = some node_id ∧
      s.tree.is_removed node_id = false ∧
      s.tree.get node_id = some nd ∧
      s.computed[nd.data.computed]? = some (some stored) ∧
      (∀ c, s.client_config = some c →
        v = ⟨s.nextArc, stored.val.clone_with_overrides c.local_⟩ ∧
        s1 = { s with nextArc := s.nextArc + 1 }) ∧
      (s.client_config = none → v = stored ∧ s1 = s) := by
  rw [ConfigTree.read_only] at h
  cases hm : mapLookup s.ra_file_id_map file_id with
  | none => simp [hm, Except.map] at h
  | some node_id =>
    simp only [hm] at h
    rw [ConfigTree.read_only_inner] at h
    cases hrm : s.tree.is_removed node_id with
    | true => simp [hrm, Except.map] at h
    | false =>
      simp only [hrm, Bool.false_eq_true, if_false] at h
      cases hget : s.tree.get node_id with
      | none => simp [hget, Except.map] at h
      | some nd =>
        simp only [hget] at h
        cases hslot : (s.computed[nd.data.computed]?).join with
        | none =>
          simp only [hslot, Except.map, Option.map] at h
          exact absurd h (by simp)
        | some stored =>
          simp only [hslot, Except.map, Option.map, Except.ok.injEq, Option.some_inj] at h
          refine ⟨node_id, nd, stored, rfl, hrm, hget, Option.join_eq_some.mp hslot, ?_, ?_⟩
          · intro c hc
            simp only [hc, ConfigTree.allocArc, Prod.mk.injEq] at h
            refine ⟨h.1.symm, ?_⟩
            rw [hc]
            exact h.2.symm
          · intro hc
            simp only [hc, Prod.mk.injEq] at h
            exact ⟨h.1.symm, h.2.symm⟩

/-- Forward evaluation of a warm read with no client config: the stored `Arc`
is handed back unchanged and the state is untouched. -/
theorem read_config_hit {s : ConfigTree} {file_id node_id : Nat} {nd : ArenaNode}
    {stored : ArcLocal}
    (hm : mapLookup s.ra_file_id_map file_id = some node_id)
    (hrm : s.tree.is_removed node_id = false)
    (hget : s.tree.get node_id = some nd)
    (hslot : s.computed[nd.data.computed]? = some (some stored))
    (hc : s.client_config = none) :
    ConcurrentConfigTree.read_config s file_id = some (.ok stored, s) := by
  have hinner : s.read_only_inner node_id = .ok (some stored) := by
    rw [ConfigTree.read_only_inner]
    simp only [hrm, Bool.false_eq_true, if_false, hget, hslot]
    rfl
  have hro : s.read_only file_id = .ok (some (stored, s)) := by
    rw [ConfigTree.read_only]
    simp [hm, hinner, Except.map, Option.map, hc]
  rw [ConcurrentConfigTree.read_config, hro]

/-- Anatomy of a successful `read_config`: the returned value is the node's
(post-read) stored tree-only value, overlaid with the client config's `local`
layer when one is set; the read changes no tree structure. -/
theorem read_config_ok_spec {s : ConfigTree} {file_id : Nat} {v : ArcLocal} {s' : ConfigTree}
    (hval : slotsValid s)
    (h : ConcurrentConfigTree.read_config s file_id = some (.ok v, s')) :
    s'.tree = s.tree ∧ s'.client_config = s.client_config ∧
    s'.ra_file_id_map = s.ra_file_id_map ∧
    ∃ node_id nd stored,
      mapLookup s.ra_file_id_map file_id = some node_id ∧
      s.tree.is_removed node_id = false ∧
      s.tree.get node_id = some nd ∧
      s'.computed[nd.data.computed]? = some (some stored) ∧
      (∀ c, s.client_config = some c → v.val = stored.val.clone_with_overrides c.local_) ∧
      (s.client_config = none → v = stored) := by
  rw [ConcurrentConfigTree.read_config] at h
  cases hro : s.read_only file_id with
  | error e => rw [hro] at h; simp at h
  | ok o =>
    cases o with
    | some p =>
      obtain ⟨cv, s1⟩ := p
      rw [hro] at h
      simp only [Option.some_inj, Prod.mk.injEq, Except.ok.injEq] at h
      obtain ⟨hv, hs⟩ := h
      subst hv
      subst hs
      obtain ⟨node_id, nd, stored, hm, hrm, hget, hslot, hsome, hnone⟩ :=
        read_only_ok_some_spec hro
      cases hc : s.client_config with
      | some c =>
        obtain ⟨hv1, hs1⟩ := hsome c hc
        subst hv1
        subst hs1
        refine ⟨rfl, hc, rfl, node_id, nd, stored, hm, hrm, hget, hslot, ?_, ?_⟩
        · intro c' hc'
          cases hc'
          rfl
        · intro hn
          exact Option.noConfusion hn
      | none =>
        obtain ⟨hv1, hs1⟩ := hnone hc
        subst hs1
        refine ⟨rfl, hc, rfl, node_id, nd, stored, hm, hrm, hget, hslot, ?_, ?_⟩
        · intro c' hc'
          exact Option.noConfusion hc'
        · intro _
          exact hv1
    | none =>
      rw [hro] at h
      cases hcp : s.compute file_id with
      | none => rw [hcp] at h; simp at h
      | some r =>
        cases r with
        | error e => rw [hcp] at h; simp at h
        | ok p =>
          obtain ⟨cv, s1⟩ := p
          rw [hcp] at h
          simp only [Option.some_inj, Prod.mk.injEq, Except.ok.injEq] at h
          obtain ⟨hv, hs⟩ := h
          subst hv
          subst hs
          rw [ConfigTree.compute] at hcp
          cases hm : mapLookup s.ra_file_id_map file_id with
          | none => simp [hm] at hcp
          | some node_id =>
            simp only [hm] at hcp
            cases hci : ConfigTree.compute_inner (s.tree.nodes.length + 1) s node_id with
            | none => simp [hci] at hcp
            | some rr =>
              cases rr with
              | error e => simp [hci] at hcp
              | ok pp =>
                obtain ⟨civ, s2⟩ := pp
                simp only [hci] at hcp
                obtain ⟨hft, hfc, hfx, hfm, hfl, hfa, hfslot⟩ := compute_inner_ok_spec hci
                obtain ⟨hrm2, nd, hget2⟩ := compute_inner_ok_node hci
                have hlt : nd.data.computed < s.computed.length :=
                  hval nd (List.getElem?_mem hget2)
                have hslot2 : s2.computed[nd.data.computed]? = some (some civ) :=
                  hfslot nd hget2 hlt
                rw [hfc] at hcp
                cases hc : s.client_config with
                | some c =>
                  rw [hc] at hcp
                  simp only [ConfigTree.allocArc, Option.some_inj, Except.ok.injEq,
                    Prod.mk.injEq] at hcp
                  obtain ⟨hv2, hs2⟩ := hcp
                  subst hv2
                  subst hs2
                  refine ⟨hft, hfc.trans hc, hfm, node_id, nd, civ, rfl, hrm2, hget2,
                    hslot2, ?_, ?_⟩
                  · intro c' hc'
                    cases hc'
                    rfl
                  · intro hn
                    exact Option.noConfusion hn
                | none =>
                  rw [hc] at hcp
                  simp only [Option.some_inj, Except.ok.injEq, Prod.mk.injEq] at hcp
                  obtain ⟨hv2, hs2⟩ := hcp
                  subst hv2
                  subst hs2
                  refine ⟨hft, hfc.trans hc, hfm, node_id, nd, civ, rfl, hrm2, hget2,
                    hslot2, ?_, ?_⟩
                  · intro c' hc'
                    exact Option.noConfusion hc'
                  · intro _
                    rfl
/-- C2: every value handed to a caller of `read_config` is the node's stored
tree-only value overlaid — as the outermost layer — with `client_config.local`
via `clone_with_overrides` when a client config is set, and is that stored
shared value itself otherwise; and the slot table a read produces is the same
whatever the client config is, so no client overrides are ever baked into a
stored slot. -/
theorem C2_read_client_overlay (s : ConfigTree) (file_id : Nat) (hval : slotsValid s) :
    (∀ v s', ConcurrentConfigTree.read_config s file_id = some (.ok v, s') →
      ∃ node_id nd stored,
        mapLookup s'.ra_file_id_map file_id = some node_id ∧
        s'.tree.get node_id = some nd ∧
        s'.computed[nd.data.computed]? = some (some stored) ∧
        (∀ c, s.client_config = some c →
          v.val = stored.val.clone_with_overrides c.local_) ∧
        (s.client_config = none → v = stored))
    ∧
    (∀ c, ((ConcurrentConfigTree.read_config { s with client_config := c } file_id).map
        fun r => r.2.computed) =
      ((ConcurrentConfigTree.read_config { s with client_config := none } file_id).map
        fun r => r.2.computed)) := by
  constructor
  · intro v s' h
    obtain ⟨hft, hfc, hfm, node_id, nd, stored, hm, hrm, hget, hslot, hsome, hnone⟩ :=
      read_config_ok_spec hval h
    refine ⟨node_id, nd, stored, ?_, ?_, hslot, hsome, hnone⟩
    · rw [hfm]
      exact hm
    · rw [hft]
      exact hget
  · intro c
    rw [ConcurrentConfigTree.read_config, ConcurrentConfigTree.read_config,
      ConfigTree.read_only, ConfigTree.read_only]
    cases hm : mapLookup s.ra_file_id_map file_id with
    | none => simp [hm, Except.map]
    | some node_id =>
      simp only [hm]
      rw [ConfigTree.read_only_inner, ConfigTree.read_only_inner]
      cases hrm : s.tree.is_removed node_id with
      | true => simp [hrm, Except.map]
      | false =>
        simp only [hrm, Bool.false_eq_true, if_false]
        cases hget : s.tree.get node_id with
        | none => simp [hget, Except.map]
        | some nd =>
          simp only [hget]
          cases hslot : (s.computed[nd.data.computed]?).join with
          | some stored =>
            cases c with
            | none => simp [hslot, Except.map, Option.map, ConfigTree.allocArc]
            | some cc => simp [hslot, Except.map, Option.map, ConfigTree.allocArc]
          | none =>
            simp only [hslot, Except.map, Option.map]
            rw [ConfigTree.compute, ConfigTree.compute]
            simp only [hm]
            have hcc := compute_inner_client c (s.tree.nodes.length + 1) s node_id
            have hcn := compute_inner_client none (s.tree.nodes.length + 1) s node_id
            cases hci : ConfigTree.compute_inner (s.tree.nodes.length + 1) s node_id with
            | none =>
              rw [hci] at hcc hcn
              simp only [Option.map_none] at hcc hcn
              simp [hcc, hcn]
            | some r =>
              cases r with
              | error e =>
                rw [hci] at hcc hcn
                simp only [Option.map_some] at hcc hcn
                simp [hcc, hcn, Except.map]
              | ok p =>
                obtain ⟨civ, s2⟩ := p
                rw [hci] at hcc hcn
                simp only [Option.map_some] at hcc hcn
                cases c with
                | none => simp [hcc, hcn, Except.map, ConfigTree.allocArc]
                | some cc => simp [hcc, hcn, Except.map, ConfigTree.allocArc]

/-- Witness for C2 at a fresh tree and its XDG file. -/
theorem C2_read_client_overlay_witness :
    (∀ v s', ConcurrentConfigTree.read_config (ConfigTree.new 0) 0 = some (.ok v, s') →
      ∃ node_id nd stored,
        mapLookup s'.ra_file_id_map 0 = some node_id ∧
        s'.tree.get node_id = some nd ∧
        s'.computed[nd.data.computed]? = some (some stored) ∧
        (∀ c, (ConfigTree.new 0).client_config = some c →
          v.val = stored.val.clone_with_overrides c.local_) ∧
        ((ConfigTree.new 0).client_config = none → v = stored))
    ∧
    (∀ c, ((ConcurrentConfigTree.read_config
          { ConfigTree.new 0 with client_config := c } 0).map
        fun r => r.2.computed) =
      ((ConcurrentConfigTree.read_config
          { ConfigTree.new 0 with client_config := none } 0).map
        fun r => r.2.computed)) :=
  C2_read_client_overlay (ConfigTree.new 0) 0 (by decide)

/-- C4 (amended): with no client config set, two consecutive `read_config`
calls with no intervening `apply_changes` return the same shared `Arc` —
pointer-equal results. (With a client config set, each read overlays the
client layer into a fresh allocation, so the results are value-equal but not
pointer-equal; see the counterexample.) -/
theorem C4_consecutive_reads_pointer_equal (s : ConfigTree) (file_id : Nat)
    (hval : slotsValid s) (hc : s.client_config = none)
    (v1 v2 : ArcLocal) (s1 s2 : ConfigTree)
    (h1 : ConcurrentConfigTree.read_config s file_id = some (.ok v1, s1))
    (h2 : ConcurrentConfigTree.read_config s1 file_id = some (.ok v2, s2)) :
    v2 = v1 ∧ v2.ptr_eq v1 = true := by
  obtain ⟨hft, hfc, hfm, node_id, nd, stored, hm, hrm, hget, hslot, _, hnone⟩ :=
    read_config_ok_spec hval h1
  have hv1 : v1 = stored := hnone hc
  have hhit : ConcurrentConfigTree.read_config s1 file_id = some (.ok stored, s1) :=
    read_config_hit (by rw [hfm]; exact hm) (by rw [hft]; exact hrm)
      (by rw [hft]; exact hget) hslot (by rw [hfc]; exact hc)
  rw [hhit] at h2
  simp only [Option.some_inj, Prod.mk.injEq, Except.ok.injEq] at h2
  obtain ⟨hv2, _⟩ := h2
  subst hv1
  rw [← hv2]
  exact ⟨rfl, by simp [ArcLocal.ptr_eq]⟩

/-- Witness for C4 (amended): two consecutive reads of the XDG file on a fresh
tree both return the allocation with id 0. -/
theorem C4_consecutive_reads_pointer_equal_witness :
    (⟨0, LocalConfigData.default⟩ : ArcLocal) = ⟨0, LocalConfigData.default⟩ ∧
    ArcLocal.ptr_eq ⟨0, LocalConfigData.default⟩ ⟨0, LocalConfigData.default⟩ = true :=
  C4_consecutive_reads_pointer_equal (ConfigTree.new 0) 0 (by decide) rfl
    ⟨0, LocalConfigData.default⟩ ⟨0, LocalConfigData.default⟩
    { ConfigTree.new 0 with computed := [some ⟨0, LocalConfigData.default⟩], nextArc := 1 }
    { ConfigTree.new 0 with computed := [some ⟨0, LocalConfigData.default⟩], nextArc := 1 }
    (by decide) (by decide)

/-- Every error pair contributed by `decodeField` names its own key. -/
theorem decodeField_key {α : Type} (t : TomlTable) (key : String)
    (dec : TomlValue → Except String α) :
    ∀ p ∈ (decodeField t key dec).2, p.1 = key := by
  intro p hp
  unfold decodeField at hp
  cases hl : lookupToml t key with
  | none => simp only [hl] at hp; simp at hp
  | some v =>
    simp only [hl] at hp
    cases hd : dec v with
    | ok a => simp only [hd] at hp; simp at hp
    | error e =>
      simp only [hd] at hp
      simp at hp
      rw [hp]

/-- `decodeField` by cases: an absent key decodes to unset with no error; a
decodable value to its decoded form with no error; an undecodable value to
unset with exactly the one `(key, error)` pair. -/
theorem decodeField_spec {α : Type} (t : TomlTable) (key : String)
    (dec : TomlValue → Except String α) :
    (lookupToml t key = none → decodeField t key dec = (none, []))
    ∧ (∀ v a, lookupToml t key = some v → dec v = .ok a →
        decodeField t key dec = (some a, []))
    ∧ (∀ v e, lookupToml t key = some v → dec v = .error e →
        decodeField t key dec = (none, [(key, e)])) := by
  refine ⟨?_, ?_, ?_⟩
  · intro hl
    unfold decodeField
    rw [hl]
  · intro v a hl hd
    unfold decodeField
    rw [hl]
    simp only [hd]
  · intro v e hl hd
    unfold decodeField
    rw [hl]
    simp only [hd]

/-- A pair whose key differs from every member's key does not occur, so its
count is zero. -/
theorem count_zero_of_key {t : TomlTable} {key target : String} {e : String}
    {α : Type} (dec : TomlValue → Except String α) (hne : target ≠ key) :
    ((decodeField t key dec).2).count (target, e) = 0 := by
  rw [List.count_eq_zero]
  intro hmem
  exact hne (decodeField_key t key dec (target, e) hmem)

/-- C6: the input parser by cases. Empty content: no input, no error.
Non-UTF-8 content: no input, one `Utf8` error naming the path. Syntactically
invalid content: no input, one `TomlParse` error naming the path. A valid
table: the partial input, with one `TomlDeserialize` error per failed field
appended — and per field, a present-but-undecodable value reads as unset and
is counted exactly once in the scratch errors, while a decodable value is
kept with no error for that field. -/
theorem C6_parse_toml_cases (file_id : Nat) (vfs : Vfs) (errors : List ConfigTreeError) :
    (vfs.file_contents file_id = .empty →
      parse_toml file_id vfs errors = (none, errors))
    ∧
    (∀ d, vfs.file_contents file_id = .nonUtf8 d →
      parse_toml file_id vfs errors =
        (none, errors ++ [.Utf8 (vfs.file_path file_id) d]))
    ∧
    (∀ d, vfs.file_contents file_id = .utf8 (.malformed d) →
      parse_toml file_id vfs errors =
        (none, errors ++ [.TomlParse (vfs.file_path file_id) d]))
    ∧
    (∀ t, vfs.file_contents file_id = .utf8 (.table t) →
      parse_toml file_id vfs errors =
        (some (ConfigInput.from_toml t).1,
          errors ++ (ConfigInput.from_toml t).2.map fun fe =>
            .TomlDeserialize (vfs.file_path file_id) fe.1 fe.2))
    ∧
    (∀ t v e, lookupToml t "completion.autoself.enable" = some v →
      decodeBool v = .error e →
      (ConfigInput.from_toml t).1.local_.completion_autoself_enable = none ∧
      (ConfigInput.from_toml t).2.count ("completion.autoself.enable", e) = 1)
    ∧
    (∀ t v e, lookupToml t "completion.autoimport.enable" = some v →
      decodeBool v = .error e →
      (ConfigInput.from_toml t).1.local_.completion_autoimport_enable = none ∧
      (ConfigInput.from_toml t).2.count ("completion.autoimport.enable", e) = 1)
    ∧
    (∀ t v e, lookupToml t "semanticHighlighting.strings.enable" = some v →
      decodeBool v = .error e →
      (ConfigInput.from_toml t).1.local_.semanticHighlighting_strings_enable = none ∧
      (ConfigInput.from_toml t).2.count ("semanticHighlighting.strings.enable", e) = 1)
    ∧
    (∀ t v e, lookupToml t "inlayHints.discriminantHints.enable" = some v →
      decodeDiscriminantHints v = .error e →
      (ConfigInput.from_toml t).1.local_.inlayHints_discriminantHints_enable = none ∧
      (ConfigInput.from_toml t).2.count ("inlayHints.discriminantHints.enable", e) = 1)
    ∧
    (∀ t v a, lookupToml t "completion.autoself.enable" = some v →
      decodeBool v = .ok a →
      (ConfigInput.from_toml t).1.local_.completion_autoself_enable = some a ∧
      ∀ e, ("completion.autoself.enable", e) ∉ (ConfigInput.from_toml t).2) := by
  refine ⟨?_, ?_, ?_, ?_, ?_, ?_, ?_, ?_, ?_⟩
  · intro hc
    unfold parse_toml
    rw [hc]
  · intro d hc
    unfold parse_toml
    rw [hc]
  · intro d hc
    unfold parse_toml
    rw [hc]
  · intro t hc
    unfold parse_toml
    rw [hc]
  · intro t v e hl hd
    have hf := (decodeField_spec t "completion.autoself.enable" decodeBool).2.2 v e hl hd
    constructor
    · show (decodeField t "completion.autoself.enable" decodeBool).1 = none
      rw [hf]
    · show ((((decodeField t "completion.autoself.enable" decodeBool).2 ++
        (decodeField t "completion.autoimport.enable" decodeBool).2) ++
          (decodeField t "semanticHighlighting.strings.enable" decodeBool).2) ++
            (decodeField t "inlayHints.discriminantHints.enable"
              decodeDiscriminantHints).2).count ("completion.autoself.enable", e) = 1
      rw [List.count_append, List.count_append, List.count_append, hf]
      rw [count_zero_of_key decodeBool (by decide),
        count_zero_of_key decodeBool (by decide),
        count_zero_of_key decodeDiscriminantHints (by decide)]
      simp
  · intro t v e hl hd
    have hf := (decodeField_spec t "completion.autoimport.enable" decodeBool).2.2 v e hl hd
    constructor
    · show (decodeField t "completion.autoimport.enable" decodeBool).1 = none
      rw [hf]
    · show ((((decodeField t "completion.autoself.enable" decodeBool).2 ++
        (decodeField t "completion.autoimport.enable" decodeBool).2) ++
          (decodeField t "semanticHighlighting.strings.enable" decodeBool).2) ++
            (decodeField t "inlayHints.discriminantHints.enable"
              decodeDiscriminantHints).2).count ("completion.autoimport.enable", e) = 1
      rw [List.count_append, List.count_append, List.count_append, hf]
      rw [count_zero_of_key decodeBool (by decide),
        count_zero_of_key decodeBool (by decide),
        count_zero_of_key decodeDiscriminantHints (by decide)]
      simp
  · intro t v e hl hd
    have hf :=
      (decodeField_spec t "semanticHighlighting.strings.enable" decodeBool).2.2 v e hl hd
    constructor
    · show (decodeField t "semanticHighlighting.strings.enable" decodeBool).1 = none
      rw [hf]
    · show ((((decodeField t "completion.autoself.enable" decodeBool).2 ++
        (decodeField t "completion.autoimport.enable" decodeBool).2) ++
          (decodeField t "semanticHighlighting.strings.enable" decodeBool).2) ++
            (decodeField t "inlayHints.discriminantHints.enable"
              decodeDiscriminantHints).2).count
          ("semanticHighlighting.strings.enable", e) = 1
      rw [List.count_append, List.count_append, List.count_append, hf]
      rw [count_zero_of_key decodeBool (by decide),
        count_zero_of_key decodeBool (by decide),
        count_zero_of_key decodeDiscriminantHints (by decide)]
      simp
  · intro t v e hl hd
    have hf := (decodeField_spec t "inlayHints.discriminantHints.enable"
      decodeDiscriminantHints).2.2 v e hl hd
    constructor
    · show (decodeField t "inlayHints.discriminantHints.enable"
        decodeDiscriminantHints).1 = none
      rw [hf]
    · show ((((decodeField t "completion.autoself.enable" decodeBool).2 ++
        (decodeField t "completion.autoimport.enable" decodeBool).2) ++
          (decodeField t "semanticHighlighting.strings.enable" decodeBool).2) ++
            (decodeField t "inlayHints.discriminantHints.enable"
              decodeDiscriminantHints).2).count
          ("inlayHints.discriminantHints.enable", e) = 1
      rw [List.count_append, List.count_append, List.count_append, hf]
      rw [count_zero_of_key decodeBool (by decide),
        count_zero_of_key decodeBool (by decide),
        count_zero_of_key decodeBool (by decide)]
      simp
  · intro t v a hl hd
    have hf := (decodeField_spec t "completion.autoself.enable" decodeBool).2.1 v a hl hd
    constructor
    · show (decodeField t "completion.autoself.enable" decodeBool).1 = some a
      rw [hf]
    · intro e hmem
      show False
      have : ("completion.autoself.enable", e) ∈
          ((((decodeField t "completion.autoself.enable" decodeBool).2 ++
            (decodeField t "completion.autoimport.enable" decodeBool).2) ++
              (decodeField t "semanticHighlighting.strings.enable" decodeBool).2) ++
                (decodeField t "inlayHints.discriminantHints.enable"
                  decodeDiscriminantHints).2) := hmem
      simp only [hf, List.nil_append, List.mem_append] at this
      rcases this with (h2 | h3) | h4
      · exact absurd (decodeField_key t "completion.autoimport.enable" decodeBool _ h2)
          (by simp)
      · exact absurd (decodeField_key t "semanticHighlighting.strings.enable" decodeBool _ h3)
          (by simp)
      · exact absurd (decodeField_key t "inlayHints.discriminantHints.enable"
          decodeDiscriminantHints _ h4) (by simp)

/-- Witness for C6: on a table whose `completion.autoself.enable` holds a
string, the field reads as unset and the scratch errors count it once; and an
absent (empty) file parses to no input with no error. -/
theorem C6_parse_toml_cases_witness :
    (parse_toml 5 ⟨[]⟩ [] = (none, [])) ∧
    ((ConfigInput.from_toml
        [("completion.autoself.enable", .str "x")]).1.local_.completion_autoself_enable =
      none ∧
    (ConfigInput.from_toml [("completion.autoself.enable", .str "x")]).2.count
      ("completion.autoself.enable", "expected a boolean") = 1) :=
  ⟨(C6_parse_toml_cases 5 ⟨[]⟩ []).1 rfl,
    (C6_parse_toml_cases 5 ⟨[]⟩ []).2.2.2.2.1
      [("completion.autoself.enable", .str "x")] (.str "x") "expected a boolean" rfl rfl⟩

/-- One `clearStep` leaves the state untouched (the source's take lands on a
temporary). -/
theorem clearStep_id (s acc : ConfigTree) (x : Nat) : clearStep s acc x = acc := by
  unfold clearStep
  cases s.tree.get x with
  | none => rfl
  | some d => rfl

/-- `invalidate_subtree` is the identity on the state: the loop body never
writes a slot, so nothing is ever invalidated. -/
theorem invalidate_subtree_id (s : ConfigTree) (node_id : Nat) :
    s.invalidate_subtree node_id = s := by
  unfold ConfigTree.invalidate_subtree
  generalize s.tree.descendants node_id = l
  induction l with
  | nil => rfl
  | cons x xs ih =>
    rw [List.foldl_cons, clearStep_id]
    exact ih

/-- C7 (divergence witness): updating a file empties no slot at all. File 2's
node (slot 1) is read while a child of file 1's node (slot 2), caching the
shared default value (allocation id 0, `completion.autoself.enable = true`).
The batch that then gives file 1 contents setting that key to `false`
succeeds, replaces the node's input — yet both slots still hold the old
value and the next read of file 2 returns the stale, pointer-equal default,
because the source's `self.computed.get_mut(..).take()` takes from a
temporary and clears nothing. -/
theorem C7_update_does_not_invalidate :
    C7apply2 = some (C7state3, []) ∧
    ((C7state3.tree.get 2).map fun nd => nd.data.input) =
      some (some ⟨⟨some false, none, none, none⟩⟩) ∧
    (C7read1.map (·.1)) = some (.ok ⟨0, LocalConfigData.default⟩) ∧
    C7state3.computed[1]? = some (some ⟨0, LocalConfigData.default⟩) ∧
    C7state3.computed[2]? = some (some ⟨0, LocalConfigData.default⟩) ∧
    (C7read2.map (·.1)) = some (.ok ⟨0, LocalConfigData.default⟩) ∧
    (⟨0, LocalConfigData.default⟩ : ArcLocal).val.completion_autoself_enable = true := by
  decide

/-- With no removed node in the arena, `is_removed` is false everywhere. -/
theorem is_removed_false {s : ConfigTree} (hnr : noRemoved s) (n : Nat) :
    s.tree.is_removed n = false := by
  unfold Arena.is_removed
  cases hg : s.tree.nodes[n]? with
  | none => rfl
  | some nd => exact hnr nd (List.getElem?_mem hg)

/-- `insert_toml` creates its node unremoved. -/
theorem noRemoved_insert {s : ConfigTree} {fid : Nat} {inp : Option ConfigInput}
    {n : Nat} {s' : ConfigTree} (hnr : noRemoved s)
    (h : s.insert_toml fid inp = some (n, s')) : noRemoved s' := by
  unfold ConfigTree.insert_toml Arena.new_node at h
  cases hm : mapLookup s.ra_file_id_map fid with
  | some _ => simp [hm] at h
  | none =>
    simp only [hm, Option.some_inj, Prod.mk.injEq] at h
    obtain ⟨_, hs⟩ := h
    subst hs
    intro nd hnd
    rcases List.mem_append.mp hnd with hold | hnew
    · exact hnr nd hold
    · rw [List.mem_singleton.mp hnew]

/-- `ensure_node` preserves the no-removed-node invariant. -/
theorem noRemoved_ensure {s : ConfigTree} {fid : Nat} {n : Nat} {s' : ConfigTree}
    (hnr : noRemoved s) (h : s.ensure_node fid = some (n, s')) : noRemoved s' := by
  unfold ConfigTree.ensure_node at h
  cases hm : mapLookup s.ra_file_id_map fid with
  | none =>
    simp only [hm] at h
    exact noRemoved_insert hnr h
  | some node_id =>
    simp only [hm, Option.some_inj, Prod.mk.injEq] at h
    rw [← h.2]
    exact hnr

/-- `invalidate_subtree` never touches the arena. -/
theorem noRemoved_invalidate {s : ConfigTree} (hnr : noRemoved s) (nid : Nat) :
    noRemoved (s.invalidate_subtree nid) := by
  rw [invalidate_subtree_id]
  exact hnr

/-- Replacing an addressable node's payload data keeps every removal flag
false. -/
theorem noRemoved_set_data {s : ConfigTree} {i : Nat} {nd : ArenaNode} {d : ConfigNode}
    (hnr : noRemoved s) (hget : s.tree.get i = some nd) :
    noRemoved { s with tree := ⟨s.tree.nodes.set i { nd with data := d }⟩ } := by
  intro x hx
  rcases List.mem_or_eq_of_mem_set hx with hold | hnew
  · exact hnr x hold
  · rw [hnew]
    show nd.removed = false
    exact hnr nd (List.getElem?_mem hget)

/-- `update_toml` under the no-removed invariant: a success preserves the
invariant and a failure is never the `Removed` error. -/
theorem update_toml_noRemoved {s : ConfigTree} {fid : Nat} {inp : Option ConfigInput}
    {r : Except ConfigTreeError (Nat × ConfigTree)} (hnr : noRemoved s)
    (h : s.update_toml fid inp = some r) :
    (∀ n s', r = .ok (n, s') → noRemoved s') ∧ r ≠ .error .Removed := by
  unfold ConfigTree.update_toml at h
  cases hm : mapLookup s.ra_file_id_map fid with
  | none =>
    simp only [hm] at h
    cases hi : s.insert_toml fid inp with
    | none => rw [hi] at h; exact Option.noConfusion h
    | some p =>
      obtain ⟨n1, s1⟩ := p
      rw [hi] at h
      simp only [Option.map, Option.some_inj] at h
      subst h
      refine ⟨?_, by simp⟩
      intro n s' he
      cases he
      exact noRemoved_insert hnr hi
  | some node_id =>
    simp only [hm, is_removed_false hnr node_id, Bool.false_eq_true, if_false] at h
    cases hget : s.tree.get node_id with
    | none =>
      simp only [hget, Option.some_inj] at h
      subst h
      refine ⟨?_, by simp⟩
      intro n s' he
      cases he
    | some nd =>
      simp only [hget, Option.some_inj] at h
      subst h
      refine ⟨fun n s' he => ?_, by simp⟩
      cases he
      exact noRemoved_invalidate (noRemoved_set_data hnr hget) node_id

/-- `remove_toml` preserves the no-removed invariant. -/
theorem remove_toml_noRemoved {s : ConfigTree} {fid : Nat} (hnr : noRemoved s) :
    noRemoved (s.remove_toml fid).1 := by
  unfold ConfigTree.remove_toml
  cases hm : mapLookup s.ra_file_id_map fid with
  | none => exact hnr
  | some node_id =>
    simp only [is_removed_false hnr node_id, Bool.false_eq_true, if_false]
    cases hget : s.tree.get node_id with
    | none => exact hnr
    | some nd => exact noRemoved_invalidate (noRemoved_set_data hnr hget) node_id

/-- Appending a child in the arena keeps every removal flag false. -/
theorem noRemoved_append {s : ConfigTree} {p c : Nat} {t : Arena} (hnr : noRemoved s)
    (h : s.tree.append p c = some t) : noRemoved { s with tree := t } := by
  unfold Arena.append at h
  by_cases hcond : (c = p ∨ s.tree.is_removed p = true ∨ s.tree.is_removed c = true)
  · rw [if_pos hcond] at h
    cases h
  · rw [if_neg hcond] at h
    cases hg : s.tree.nodes[c]? with
    | none => rw [hg] at h; cases h
    | some nd =>
      rw [hg] at h
      simp only [Option.some_inj] at h
      subst h
      intro x hx
      rcases List.mem_or_eq_of_mem_set hx with hold | hnew
      · exact hnr x hold
      · rw [hnew]
        show nd.removed = false
        exact hnr nd (List.getElem?_mem hg)

/-- The parent-changes loop preserves the no-removed invariant. -/
theorem applyParentChanges_noRemoved :
    ∀ (l : List ConfigParentChange) (s s' : ConfigTree), noRemoved s →
      ConfigTree.applyParentChanges s l = some s' → noRemoved s' := by
  intro l
  induction l with
  | nil =>
    intro s s' hnr h
    unfold ConfigTree.applyParentChanges at h
    rw [← Option.some_inj.mp h]
    exact hnr
  | cons pc rest ih =>
    intro s s' hnr h
    unfold ConfigTree.applyParentChanges at h
    cases he : s.ensure_node pc.file_id with
    | none => rw [he] at h; cases h
    | some p1 =>
      obtain ⟨node_id, s1⟩ := p1
      have hnr1 := noRemoved_ensure hnr he
      simp only [he] at h
      cases hpc : pc.parent with
      | UserDefault =>
        simp only [hpc] at h
        cases ha : s1.tree.append s1.xdg_config_node_id node_id with
        | none => rw [ha] at h; cases h
        | some t =>
          rw [ha] at h
          exact ih _ s' (noRemoved_append hnr1 ha) h
      | Parent pfid =>
        simp only [hpc] at h
        cases he2 : s1.ensure_node pfid with
        | none => rw [he2] at h; cases h
        | some p2 =>
          obtain ⟨parent_node_id, s2⟩ := p2
          have hnr2 := noRemoved_ensure hnr1 he2
          simp only [he2] at h
          cases ha : s2.tree.append parent_node_id node_id with
          | none => rw [ha] at h; cases h
          | some t =>
            rw [ha] at h
            exact ih _ s' (noRemoved_append hnr2 ha) h

/-- `parse_toml` never emits the `Removed` error. -/
theorem parse_toml_no_removed (fid : Nat) (vfs : Vfs) (errors : List ConfigTreeError)
    (h : ConfigTreeError.Removed ∉ errors) :
    ConfigTreeError.Removed ∉ (parse_toml fid vfs errors).2 := by
  unfold parse_toml
  cases vfs.file_contents fid with
  | empty => exact h
  | nonUtf8 d => simp [h]
  | utf8 src =>
    cases src with
    | malformed d => simp [h]
    | table t => simp [h]

/-- The file-changes loop preserves the no-removed invariant and never adds a
`Removed` error to a sink free of them. -/
theorem applyTomlChanges_noRemoved :
    ∀ (l : List ChangedFile) (s : ConfigTree) (vfs : Vfs)
      (errors : List ConfigTreeError) (s' : ConfigTree) (errs' : List ConfigTreeError),
      noRemoved s → ConfigTreeError.Removed ∉ errors →
      ConfigTree.applyTomlChanges s l vfs errors = some (s', errs') →
      noRemoved s' ∧ ConfigTreeError.Removed ∉ errs' := by
  intro l
  induction l with
  | nil =>
    intro s vfs errors s' errs' hnr herr h
    unfold ConfigTree.applyTomlChanges at h
    simp only [Option.some_inj, Prod.mk.injEq] at h
    rw [← h.1, ← h.2]
    exact ⟨hnr, herr⟩
  | cons change rest ih =>
    intro s vfs errors s' errs' hnr herr h
    unfold ConfigTree.applyTomlChanges at h
    cases hk : change.change_kind with
    | Create =>
      simp only [hk] at h
      have hp := parse_toml_no_removed change.file_id vfs errors herr
      cases hu : s.update_toml change.file_id (parse_toml change.file_id vfs errors).1 with
      | none => rw [hu] at h; cases h
      | some r =>
        obtain ⟨hok, _⟩ := update_toml_noRemoved hnr hu
        cases r with
        | error e =>
          rw [hu] at h
          exact ih s vfs _ s' errs' hnr hp h
        | ok p =>
          obtain ⟨n1, s1⟩ := p
          rw [hu] at h
          exact ih s1 vfs _ s' errs' (hok n1 s1 rfl) hp h
    | Modify =>
      simp only [hk] at h
      have hp := parse_toml_no_removed change.file_id vfs errors herr
      cases hu : s.update_toml change.file_id (parse_toml change.file_id vfs errors).1 with
      | none => rw [hu] at h; cases h
      | some r =>
        obtain ⟨hok, hne⟩ := update_toml_noRemoved hnr hu
        cases r with
        | error e =>
          rw [hu] at h
          refine ih s vfs _ s' errs' hnr ?_ h
          intro hmem
          rcases List.mem_append.mp hmem with h1 | h2
          · exact hp h1
          · rw [List.mem_singleton.mp h2] at hne
            exact hne rfl
        | ok p =>
          obtain ⟨n1, s1⟩ := p
          rw [hu] at h
          exact ih s1 vfs _ s' errs' (hok n1 s1 rfl) hp h
    | Delete =>
      simp only [hk] at h
      exact ih _ vfs errors s' errs' (remove_toml_noRemoved hnr) herr h

/-- Under the no-removed invariant, `compute_inner` never produces the
`Removed` error. -/
theorem compute_inner_not_removed {s : ConfigTree} (hnr : noRemoved s) :
    ∀ (fuel : Nat) (nid : Nat),
      ConfigTree.compute_inner fuel s nid ≠ some (.error .Removed) := by
  intro fuel
  induction fuel with
  | zero =>
    intro nid h
    simp [ConfigTree.compute_inner] at h
  | succ fuel ih =>
    intro nid h
    rw [ConfigTree.compute_inner] at h
    rw [is_removed_false hnr nid] at h
    simp only [Bool.false_eq_true, if_false] at h
    cases hget : s.tree.get nid with
    | none => simp [hget] at h
    | some nd =>
      simp only [hget] at h
      cases hslot : (s.computed[nd.data.computed]?).join with
      | some v =>
        simp only [hslot] at h
        simp at h
      | none =>
        simp only [hslot] at h
        cases hp : nd.parent with
        | some parent =>
          simp only [hp] at h
          cases hrec : ConfigTree.compute_inner fuel s parent with
          | none => simp [hrec] at h
          | some rr =>
            cases rr with
            | error e =>
              simp only [hrec, Option.some_inj, Except.error.injEq] at h
              exact ih parent (by rw [hrec, h])
            | ok pp =>
              obtain ⟨pv, s1⟩ := pp
              simp [hrec] at h
        | none =>
          simp only [hp] at h
          cases hin : nd.data.input with
          | some input => simp [hin, ConfigTree.allocArc] at h
          | none => simp [hin, ConfigTree.allocArc] at h

/-- Under the no-removed invariant, `compute` never produces the `Removed`
error, and a success preserves the invariant. -/
theorem compute_noRemoved {s : ConfigTree} {fid : Nat} (hnr : noRemoved s) :
    (s.compute fid ≠ some (.error .Removed)) ∧
    (∀ v s1, s.compute fid = some (.ok (v, s1)) → noRemoved s1) := by
  cases hm : mapLookup s.ra_file_id_map fid with
  | none =>
    have hc : s.compute fid = some (.error .NonExistent) := by
      simp only [ConfigTree.compute, hm]
    rw [hc]
    constructor
    · simp
    · intro v s1 h
      simp at h
  | some node_id =>
    cases hci : ConfigTree.compute_inner (s.tree.nodes.length + 1) s node_id with
    | none =>
      have hc : s.compute fid = none := by
        simp only [ConfigTree.compute, hm, hci]
      rw [hc]
      constructor
      · simp
      · intro v s1 h
        simp at h
    | some rr =>
      cases rr with
      | error e =>
        have hc : s.compute fid = some (.error e) := by
          simp only [ConfigTree.compute, hm, hci]
        rw [hc]
        constructor
        · intro h
          simp only [Option.some_inj, Except.error.injEq] at h
          exact compute_inner_not_removed hnr _ node_id (by rw [hci, h])
        · intro v s1 h
          simp at h
      | ok pp =>
        obtain ⟨civ, s2⟩ := pp
        have hnr2 : noRemoved s2 := by
          intro nd hnd
          rw [(compute_inner_ok_spec hci).1] at hnd
          exact hnr nd hnd
        cases hcl : s2.client_config with
        | some c =>
          have hc : s.compute fid =
              some (.ok (s2.allocArc (civ.val.clone_with_overrides c.local_))) := by
            simp only [ConfigTree.compute, hm, hci, hcl]
          rw [hc]
          constructor
          · simp [ConfigTree.allocArc]
          · intro v s1 h
            simp only [ConfigTree.allocArc, Option.some_inj, Except.ok.injEq,
              Prod.mk.injEq] at h
            rw [← h.2]
            exact hnr2
        | none =>
          have hc : s.compute fid = some (.ok (civ, s2)) := by
            simp only [ConfigTree.compute, hm, hci, hcl]
          rw [hc]
          constructor
          · simp
          · intro v s1 h
            simp only [Option.some_inj, Except.ok.injEq, Prod.mk.injEq] at h
            rw [← h.2]
            exact hnr2

/-- Under the no-removed invariant, `read_only` never fails with `Removed`. -/
theorem read_only_not_removed {s : ConfigTree} {fid : Nat} (hnr : noRemoved s) :
    s.read_only fid ≠ .error .Removed := by
  intro h
  simp only [ConfigTree.read_only] at h
  cases hm : mapLookup s.ra_file_id_map fid with
  | none => simp [hm] at h
  | some node_id =>
    simp only [hm, ConfigTree.read_only_inner, is_removed_false hnr node_id,
      Bool.false_eq_true, if_false] at h
    cases hget : s.tree.get node_id with
    | none => simp [hget, Except.map] at h
    | some nd => simp [hget, Except.map] at h

/-- Under the no-removed invariant, `read_config` never returns the `Removed`
error and preserves the invariant. -/
theorem read_config_noRemoved {s : ConfigTree} {fid : Nat}
    {r : Except ConfigTreeError ArcLocal} {s' : ConfigTree} (hnr : noRemoved s)
    (h : ConcurrentConfigTree.read_config s fid = some (r, s')) :
    noRemoved s' ∧ r ≠ .error .Removed := by
  rw [ConcurrentConfigTree.read_config] at h
  cases hro : s.read_only fid with
  | error e =>
    rw [hro] at h
    simp only [Option.some_inj, Prod.mk.injEq] at h
    refine ⟨by rw [← h.2]; exact hnr, ?_⟩
    rw [← h.1]
    intro heq
    injection heq with he
    exact read_only_not_removed hnr (by rw [hro, he])
  | ok o =>
    cases o with
    | some p =>
      obtain ⟨cv, s1⟩ := p
      rw [hro] at h
      simp only [Option.some_inj, Prod.mk.injEq] at h
      obtain ⟨hr, hs⟩ := h
      obtain ⟨node_id, nd, stored, _, _, _, _, hsome, hnone⟩ := read_only_ok_some_spec hro
      have hnr1 : noRemoved s1 := by
        cases hc : s.client_config with
        | some c =>
          rw [(hsome c hc).2]
          exact hnr
        | none =>
          rw [(hnone hc).2]
          exact hnr
      refine ⟨by rw [← hs]; exact hnr1, ?_⟩
      rw [← hr]
      simp
    | none =>
      rw [hro] at h
      cases hcp : s.compute fid with
      | none => rw [hcp] at h; cases h
      | some rr =>
        cases rr with
        | error e =>
          rw [hcp] at h
          simp only [Option.some_inj, Prod.mk.injEq] at h
          refine ⟨by rw [← h.2]; exact hnr, ?_⟩
          rw [← h.1]
          intro heq
          injection heq with he
          exact (compute_noRemoved hnr).1 (by rw [hcp, he])
        | ok p =>
          obtain ⟨cv, s1⟩ := p
          rw [hcp] at h
          simp only [Option.some_inj, Prod.mk.injEq] at h
          refine ⟨by rw [← h.2]; exact (compute_noRemoved hnr).2 cv s1 hcp, ?_⟩
          rw [← h.1]
          simp

/-- A whole `apply_changes` batch under the no-removed invariant: the
invariant is preserved and the returned error list never holds `Removed`. -/
theorem apply_changes_noRemoved {s : ConfigTree} {changes : ConfigChanges} {vfs : Vfs}
    {s' : ConfigTree} {errs : List ConfigTreeError} (hnr : noRemoved s)
    (h : s.apply_changes changes vfs = some (s', errs)) :
    noRemoved s' ∧ ConfigTreeError.Removed ∉ errs := by
  unfold ConfigTree.apply_changes at h
  cases hcc : changes.client_change with
  | none =>
    simp only [hcc] at h
    cases hp : s.applyParentChanges changes.parent_changes with
    | none => rw [hp] at h; cases h
    | some s1 =>
      rw [hp] at h
      exact applyTomlChanges_noRemoved changes.ra_toml_changes s1 vfs [] s' errs
        (applyParentChanges_noRemoved changes.parent_changes s s1 hnr hp)
        (by simp) h
  | some c =>
    simp only [hcc] at h
    cases hp : ConfigTree.applyParentChanges { s with client_config := c }
        changes.parent_changes with
    | none => rw [hp] at h; cases h
    | some s1 =>
      rw [hp] at h
      exact applyTomlChanges_noRemoved changes.ra_toml_changes s1 vfs [] s' errs
        (applyParentChanges_noRemoved changes.parent_changes _ s1
          (show noRemoved { s with client_config := c } from hnr) hp)
        (by simp) h

/-- A run of facade operations under the no-removed invariant: the invariant
is preserved, no error list holds `Removed`, and no read returns it. -/
theorem runOps_noRemoved :
    ∀ (ops : List Op) (s s' : ConfigTree) (errs : List ConfigTreeError)
      (rs : List (Except ConfigTreeError ArcLocal)), noRemoved s →
      runOps s ops = some (s', errs, rs) →
      noRemoved s' ∧ ConfigTreeError.Removed ∉ errs ∧
        ∀ r ∈ rs, r ≠ .error .Removed := by
  intro ops
  induction ops with
  | nil =>
    intro s s' errs rs hnr h
    unfold runOps at h
    simp only [Option.some_inj, Prod.mk.injEq] at h
    obtain ⟨h1, h2, h3⟩ := h
    rw [← h1, ← h2, ← h3]
    exact ⟨hnr, by simp, by simp⟩
  | cons op rest ih =>
    intro s s' errs rs hnr h
    cases op with
    | apply changes vfs =>
      unfold runOps at h
      cases ha : s.apply_changes changes vfs with
      | none => simp [ha] at h
      | some p =>
        obtain ⟨s1, errs1⟩ := p
        simp only [ha] at h
        obtain ⟨hnr1, hne1⟩ := apply_changes_noRemoved hnr ha
        cases hr : runOps s1 rest with
        | none => simp_all
        | some t =>
          obtain ⟨sf, ef, rf⟩ := t
          rw [hr] at h
          simp only [Option.map, Option.some_inj, Prod.mk.injEq] at h
          obtain ⟨h1, h2, h3⟩ := h
          obtain ⟨ka, kb, kc⟩ := ih s1 sf ef rf hnr1 hr
          refine ⟨by rw [← h1]; exact ka, ?_, by rw [← h3]; exact kc⟩
          rw [← h2]
          intro hmem
          rcases List.mem_append.mp hmem with hx | hx
          · exact hne1 hx
          · exact kb hx
    | read fid =>
      unfold runOps at h
      cases hrd : ConcurrentConfigTree.read_config s fid with
      | none => simp [hrd] at h
      | some p =>
        obtain ⟨r1, s1⟩ := p
        simp only [hrd] at h
        obtain ⟨hnr1, hne1⟩ := read_config_noRemoved hnr hrd
        cases hr : runOps s1 rest with
        | none => simp_all
        | some t =>
          obtain ⟨sf, ef, rf⟩ := t
          rw [hr] at h
          simp only [Option.map, Option.some_inj, Prod.mk.injEq] at h
          obtain ⟨h1, h2, h3⟩ := h
          obtain ⟨ka, kb, kc⟩ := ih s1 sf ef rf hnr1 hr
          refine ⟨by rw [← h1]; exact ka, by rw [← h2]; exact kb, ?_⟩
          rw [← h3]
          intro r hmem
          rcases List.mem_cons.mp hmem with hx | hx
          · rw [hx]
            exact hne1
          · exact kc r hx

/-- C9: starting from a fresh tree, no sequence of `apply_changes` and
`read_config` calls ever surfaces `ConfigTreeError::Removed` — no batch error
list holds it, no read returns it — and every node reachable through the
file-id map is unremoved (nothing ever removes an arena node). -/
theorem C9_removed_unreachable (xdg_file_id : Nat) (ops : List Op)
    (s' : ConfigTree) (errs : List ConfigTreeError)
    (rs : List (Except ConfigTreeError ArcLocal))
    (h : runOps (ConfigTree.new xdg_file_id) ops = some (s', errs, rs)) :
    ConfigTreeError.Removed ∉ errs ∧
    (∀ r ∈ rs, r ≠ .error .Removed) ∧
    (∀ fid nid, mapLookup s'.ra_file_id_map fid = some nid →
      s'.tree.is_removed nid = false) := by
  have hnr : noRemoved (ConfigTree.new xdg_file_id) := by
    intro nd hnd
    rw [List.mem_singleton.mp hnd]
  obtain ⟨hnr2, hne, hrs⟩ :=
    runOps_noRemoved ops (ConfigTree.new xdg_file_id) s' errs rs hnr h
  exact ⟨hne, hrs, fun fid nid _ => is_removed_false hnr2 nid⟩

/-- Witness for C9: a one-read run on a fresh tree. -/
theorem C9_removed_unreachable_witness :
    ConfigTreeError.Removed ∉ ([] : List ConfigTreeError) ∧
    (∀ r ∈ [Except.ok (⟨0, LocalConfigData.default⟩ : ArcLocal)],
      r ≠ Except.error ConfigTreeError.Removed) ∧
    (∀ fid nid, mapLookup ({ ConfigTree.new 0 with
        computed := [some ⟨0, LocalConfigData.default⟩],
        nextArc := 1 } : ConfigTree).ra_file_id_map fid = some nid →
      ({ ConfigTree.new 0 with
        computed := [some ⟨0, LocalConfigData.default⟩],
        nextArc := 1 } : ConfigTree).tree.is_removed nid = false) :=
  C9_removed_unreachable 0 [.read 0]
    { ConfigTree.new 0 with computed := [some ⟨0, LocalConfigData.default⟩], nextArc := 1 }
    [] [Except.ok ⟨0, LocalConfigData.default⟩] (by decide)

end RaConfig
